import Mathlib

/-!
Shallow embedding of `src/parser.rs` from the hyblm/8086 repository: a
bit-level decoder for the 8086 MOV instruction family, written in Rust on
top of the `winnow` bit-stream combinators.

The Rust input type is `BitInput<'a> = (&'a [u8], usize)`: a byte slice
together with a bit offset (0..8) into its first byte.  We model bytes as
`Nat` (actual program bytes are `u8`, hence < 256; the bit-extraction
functions only ever look at the low 8 bits of each byte).  Fallible
parsers return `Except`: winnow's `InsufficientInput`-style EOF error is
`PErr.insufficientInput`, and a Rust `panic` (from `todo` or a failed
`assert`) is `PErr.panicked msg` — a panic aborts the process, so in the
embedding it is an outcome distinct from an ordinary parse error.
-/

namespace Decode8086

/-- Modelled from the spec: the crate-root data model (`Address`,
`EAddress`, `Immediate`, `Instruction`, `Location`, `Op`, `Register`,
`Source`) is imported by `parser.rs` but its defining module is not in
`src/`; §3 of the spec describes it.  `Address` is one of eight fixed
base-register combinations. -/
inductive Address where
  | BxSi | BxDi | BpSi | BpDi | Si | Di | Bp | Bx
  deriving DecidableEq, Repr

/-- Modelled from the spec: an immediate literal, an 8-bit byte or a
16-bit word. -/
inductive Immediate where
  | Byte (v : Nat)
  | Word (v : Nat)
  deriving DecidableEq, Repr

/-- Modelled from the spec: an effective address, a bare base-register
combination or one with a displacement. -/
inductive EAddress where
  | Bare (a : Address)
  | WithOffset (a : Address) (off : Immediate)
  deriving DecidableEq, Repr

/-- Modelled from the spec: a register, discriminated by a 3-bit index
and a width flag. -/
structure Register where
  index : Nat
  isWord : Bool
  deriving DecidableEq, Repr

/-- Modelled from the spec: `Register::word`, the word-width register of
a 3-bit field value (used as a constructor function in `parse_reg`). -/
def Register.word (i : Nat) : Register := ⟨i, true⟩

/-- Modelled from the spec: `Register::byte`, the byte-width register of
a 3-bit field value. -/
def Register.byte (i : Nat) : Register := ⟨i, false⟩

/-- Modelled from the spec: an operand location, a register or a memory
effective address. -/
inductive Location where
  | Reg (r : Register)
  | Addr (e : EAddress)
  deriving DecidableEq, Repr

/-- Modelled from the spec: a source operand, a location or an immediate. -/
inductive Source where
  | Loc (l : Location)
  | Imm (i : Immediate)
  deriving DecidableEq, Repr

/-- Modelled from the spec: the operation kind.  The variants are exactly
those matched in `parser.rs`; note `Unimplemented` carries no payload. -/
inductive Op where
  | MovRegRM
  | MovImmediateReg
  | MovImmediateRM
  | Unimplemented
  deriving DecidableEq, Repr

/-- Modelled from the spec: the decoded instruction record, with the
field names used by the literal in `parse_instruction`. -/
structure Instruction where
  _address : Nat
  _size : Nat
  operation : Op
  destination : Location
  source : Source
  deriving DecidableEq, Repr

/-- Outcome of a fallible decode step: winnow's end-of-input error, or a
Rust panic (`todo` / failed `assert`), which aborts the process. -/
inductive PErr where
  | insufficientInput
  | panicked (msg : String)
  deriving DecidableEq, Repr

/-- `BitInput<'a> = (&'a [u8], usize)`: byte buffer plus bit offset into
its first byte. -/
abbrev BitInput := List Nat × Nat

abbrev PResult (α : Type) := Except PErr (BitInput × α)

/-- Bit `k` (MSB-first, counted from the start of the current slice) of
the byte stream: bit `7 - k % 8` of byte `k / 8`. -/
def bitOf (bs : List Nat) (k : Nat) : Nat :=
  ((bs.getD (k / 8) 0) >>> (7 - k % 8)) % 2

/-- Value of the `n` bits starting at bit offset `off`, MSB-first
(big-endian accumulation, as in winnow's bits `take`). -/
def bitsVal (bs : List Nat) (off : Nat) : Nat → Nat
  | 0 => 0
  | n + 1 => bitsVal bs off n * 2 + bitOf bs (off + n)

/-- winnow `bits::take(n)`: fails when fewer than `n` bits remain
(`eof_offset * 8 < count + bit_offset`), otherwise yields the `n`-bit
MSB-first value and the input advanced by `n` bits (whole bytes dropped
from the front of the slice). -/
def take (n : Nat) (i : BitInput) : Except PErr (BitInput × Nat) :=
  if i.1.length * 8 < i.2 + n then .error .insufficientInput
  else .ok ((i.1.drop ((i.2 + n) / 8), (i.2 + n) % 8), bitsVal i.1 i.2 n)

/-- winnow `bits::bool`: one bit, tested against 1. -/
def bool (i : BitInput) : Except PErr (BitInput × Bool) :=
  (take 1 i).map (fun p => (p.1, p.2 == 1))

def take_nibble (i : BitInput) : Except PErr (BitInput × Nat) := take 4 i

def take_3bits (i : BitInput) : Except PErr (BitInput × Nat) := take 3 i

def take_2bits (i : BitInput) : Except PErr (BitInput × Nat) := take 2 i

/-- `parse_reg(w_bit)`: maps a 3-bit field through `Register::word` or
`Register::byte` according to the width flag. -/
def parse_reg (w_bit : Bool) (i : BitInput) : Except PErr (BitInput × Register) :=
  (take 3 i).map
    (fun p => (p.1, if w_bit then Register.word p.2 else Register.byte p.2))

/-- `parse_opcode`: reads the leading nibble and classifies the family.
The `0b1100` and `0b1010` arms are `todo` in the source (process abort);
the catch-all arm prints diagnostics to stdout (a side effect outside
this pure model) and returns the payload-less `Op::Unimplemented`. -/
def parse_opcode (i : BitInput) : Except PErr (BitInput × Op) := do
  let (i, nib) ← take_nibble i
  match nib with
  | 0b1000 => do
      let (i, _) ← take_2bits i
      pure (i, Op.MovRegRM)
  | 0b1011 => pure (i, Op.MovImmediateReg)
  | 0b1100 => .error (.panicked "not yet implemented: Immediate to register/memory")
  | 0b1010 => .error (.panicked "not yet implemented: Memory to/from accumulator")
  | _ => pure (i, Op.Unimplemented)

/-- `parse_immediate`: 8 bits; when `is_word`, 8 more bits as the high
byte, composed as `(high << 8) + low` (little-endian). -/
def parse_immediate (i : BitInput) (is_word : Bool) : Except PErr (BitInput × Immediate) := do
  let (i, low) ← take 8 i
  if !is_word then
    pure (i, Immediate.Byte low)
  else do
    let (i, high) ← take 8 i
    let high := high <<< 8
    pure (i, Immediate.Word (high + low))

/-- `parse_addr`: 3-bit field to base-register combination, in
field-value order; the `_` arm of the Rust `match` catches 7 (`Bx`). -/
def parse_addr (i : BitInput) : Except PErr (BitInput × Address) := do
  let (i, a) ← take_3bits i
  let addr :=
    match a with
    | 0b000 => Address.BxSi
    | 0b001 => Address.BxDi
    | 0b010 => Address.BpSi
    | 0b011 => Address.BpDi
    | 0b100 => Address.Si
    | 0b101 => Address.Di
    | 0b110 => Address.Bp
    | _ => Address.Bx
  pure (i, addr)

/-- `parse_eaddr`: mode 0 is a bare address; otherwise a displacement
follows, word-sized exactly when `mode == 0b10`. -/
def parse_eaddr (i : BitInput) (mode : Nat) (addr : Address) : Except PErr (BitInput × EAddress) := do
  if mode = 0 then
    pure (i, EAddress.Bare addr)
  else do
    let is_word := mode == 0b10
    let (i, imm) ← parse_immediate i is_word
    pure (i, EAddress.WithOffset addr imm)

/-- `parse_rm`: `assert(mode <= 3)` is modelled as a panic outcome on its
failure branch; mode `0b11` is register-direct, otherwise an effective
address is decoded. -/
def parse_rm (mode : Nat) (w_bit : Bool) (i : BitInput) : Except PErr (BitInput × Location) := do
  if mode > 3 then
    .error (.panicked "assertion failed: mode <= 3")
  else if mode = 0b11 then do
    let (i, reg) ← parse_reg w_bit i
    pure (i, Location.Reg reg)
  else do
    let (i, addr) ← parse_addr i
    let (i, eaddr) ← parse_eaddr i mode addr
    pure (i, Location.Addr eaddr)

/-- `parse_instruction`: classifier, family-specific field layout, and
assembly of the instruction record.  The `MovImmediateRM` and
`Unimplemented` arms are `todo` in the source; the record is built with
`_address: 0, _size: 0`. -/
def parse_instruction (i : BitInput) : Except PErr (BitInput × Instruction) := do
  let (i, opcode) ← parse_opcode i
  let (i, destination, source) ←
    match opcode with
    | Op.MovRegRM => do
        let (i, d_bit) ← bool i
        let (i, is_word) ← bool i
        let (i, mode) ← take_2bits i
        let (i, reg) ← parse_reg is_word i
        let (i, rm) ← parse_rm mode is_word i
        if d_bit then
          pure (i, Location.Reg reg, Source.Loc rm)
        else
          pure (i, rm, Source.Loc (Location.Reg reg))
    | Op.MovImmediateReg => do
        let (i, is_word) ← bool i
        let (i, reg) ← parse_reg is_word i
        let (i, val) ← parse_immediate i is_word
        pure (i, Location.Reg reg, Source.Imm val)
    | Op.MovImmediateRM => .error (.panicked "not yet implemented")
    | Op.Unimplemented => .error (.panicked "not yet implemented")
  pure (i, { _address := 0, _size := 0, operation := opcode,
             destination := destination, source := source })

/-- Helper for stating the direction-bit symmetry property: exchanges the
destination with a location-valued source (the identity on an
immediate-valued source, which the symmetry never hits). -/
def swapRoles (ins : Instruction) : Instruction :=
  match ins.source with
  | Source.Loc l => { ins with destination := l, source := Source.Loc ins.destination }
  | Source.Imm _ => ins

/-- The continuation of `parse_instruction` on the `MovRegRM` path once
the first byte (nibble, discarded 2 bits, `d` bit and `w` bit) has been
consumed: decode of mode, reg and rm fields from the remaining bytes and
assembly of the record, with the roles assigned by `d`. -/
def movTail (d w : Bool) (rest : List Nat) : Except PErr (BitInput × Instruction) := do
  let (i, mode) ← take_2bits (rest, 0)
  let (i, reg) ← parse_reg w i
  let (i, rm) ← parse_rm mode w i
  if d then
    pure (i, { _address := 0, _size := 0, operation := Op.MovRegRM,
               destination := Location.Reg reg, source := Source.Loc rm })
  else
    pure (i, { _address := 0, _size := 0, operation := Op.MovRegRM,
               destination := rm, source := Source.Loc (Location.Reg reg) })

/-- `okOrEof r`: the step either succeeded or stopped with the
end-of-input error — in particular it did not panic.  This is the shape
of every step of the implemented decode paths. -/
def okOrEof {α : Type} (r : Except PErr α) : Prop :=
  (∃ a, r = Except.ok a) ∨ r = Except.error PErr.insufficientInput

/-- `notAssert r`: the step did not end in the panic of `parse_rm`'s
`assert(mode <= 3)` failure branch. -/
def notAssert {α : Type} (r : Except PErr α) : Prop :=
  r ≠ Except.error (PErr.panicked "assertion failed: mode <= 3")

/-! Basic reduction lemmas for the `Except PErr` monad. -/

@[simp]
theorem pe_bind_ok {α β : Type} (a : α) (f : α → Except PErr β) :
    (Except.ok a >>= f : Except PErr β) = f a := rfl

@[simp]
theorem pe_bind_err {α β : Type} (e : PErr) (f : α → Except PErr β) :
    (Except.error e >>= f : Except PErr β) = Except.error e := rfl

@[simp]
theorem pe_pure {α : Type} (a : α) : (pure a : Except PErr α) = Except.ok a := rfl

@[simp]
theorem pe_map_ok {α β : Type} (f : α → β) (a : α) :
    (Except.ok a : Except PErr α).map f = Except.ok (f a) := rfl

@[simp]
theorem pe_map_err {α β : Type} (f : α → β) (e : PErr) :
    (Except.error e : Except PErr α).map f = Except.error e := rfl

theorem pe_bind_eq_ok {α β : Type} {x : Except PErr α} {f : α → Except PErr β}
    {b : β} (h : (x >>= f) = Except.ok b) : ∃ a, x = Except.ok a ∧ f a = Except.ok b := by
  cases x with
  | error e => simp at h
  | ok a => exact ⟨a, rfl, by simpa using h⟩

/-! Bounds on bit-field values. -/

theorem bitOf_le_one (bs : List Nat) (k : Nat) : bitOf bs k ≤ 1 := by
  have := Nat.mod_lt ((bs.getD (k / 8) 0) >>> (7 - k % 8)) (show 0 < 2 by decide)
  unfold bitOf
  omega

theorem bitsVal_lt (bs : List Nat) (off : Nat) : ∀ n, bitsVal bs off n < 2 ^ n := by
  intro n
  induction n with
  | zero => simp [bitsVal]
  | succ m ih =>
      have hb := bitOf_le_one bs (off + m)
      unfold bitsVal
      rw [pow_succ]
      omega

theorem take_err {n : Nat} {i : BitInput} {e : PErr}
    (h : take n i = Except.error e) : e = PErr.insufficientInput := by
  unfold take at h
  split at h
  · exact ((Except.error.injEq _ _).mp h).symm
  · exact absurd h (by simp)

theorem take_ok_lt {n : Nat} {i i1 : BitInput} {v : Nat}
    (h : take n i = Except.ok (i1, v)) : v < 2 ^ n := by
  unfold take at h
  split at h
  · exact absurd h (by simp)
  · simp only [Except.ok.injEq, Prod.mk.injEq] at h
    exact h.2 ▸ bitsVal_lt i.1 i.2 n

theorem okOrEof_bind {α β : Type} {x : Except PErr α} {f : α → Except PErr β}
    (hx : okOrEof x) (hf : ∀ a, x = Except.ok a → okOrEof (f a)) :
    okOrEof (x >>= f) := by
  rcases hx with ⟨a, ha⟩ | ha
  · rw [ha]; exact hf a ha
  · rw [ha]; exact Or.inr rfl

theorem okOrEof_take (n : Nat) (i : BitInput) : okOrEof (take n i) := by
  unfold take
  split
  · exact Or.inr rfl
  · exact Or.inl ⟨_, rfl⟩

theorem okOrEof_pure {α : Type} (a : α) : okOrEof (pure a : Except PErr α) :=
  Or.inl ⟨a, rfl⟩

theorem okOrEof_bool (i : BitInput) : okOrEof (bool i) := by
  unfold bool
  rcases okOrEof_take 1 i with ⟨a, ha⟩ | ha <;> rw [ha]
  · exact Or.inl ⟨_, rfl⟩
  · exact Or.inr rfl

theorem okOrEof_parse_reg (w : Bool) (i : BitInput) : okOrEof (parse_reg w i) := by
  unfold parse_reg
  rcases okOrEof_take 3 i with ⟨a, ha⟩ | ha <;> rw [ha]
  · exact Or.inl ⟨_, rfl⟩
  · exact Or.inr rfl

theorem okOrEof_parse_immediate (i : BitInput) (w : Bool) :
    okOrEof (parse_immediate i w) := by
  unfold parse_immediate
  refine okOrEof_bind (okOrEof_take 8 i) ?_
  rintro ⟨i1, low⟩ -
  cases w with
  | false => exact Or.inl ⟨_, rfl⟩
  | true =>
      refine okOrEof_bind (okOrEof_take 8 i1) ?_
      rintro ⟨i2, high⟩ -
      exact Or.inl ⟨_, rfl⟩

theorem okOrEof_parse_addr (i : BitInput) : okOrEof (parse_addr i) := by
  unfold parse_addr take_3bits
  refine okOrEof_bind (okOrEof_take 3 i) ?_
  rintro ⟨i1, a⟩ -
  exact Or.inl ⟨_, rfl⟩

theorem okOrEof_parse_eaddr (i : BitInput) (mode : Nat) (addr : Address) :
    okOrEof (parse_eaddr i mode addr) := by
  unfold parse_eaddr
  split
  · exact Or.inl ⟨_, rfl⟩
  · refine okOrEof_bind (okOrEof_parse_immediate i _) ?_
    rintro ⟨i1, imm⟩ -
    exact Or.inl ⟨_, rfl⟩

theorem okOrEof_parse_rm (mode : Nat) (w : Bool) (i : BitInput) (hm : mode ≤ 3) :
    okOrEof (parse_rm mode w i) := by
  unfold parse_rm
  split
  · omega
  · split
    · refine okOrEof_bind (okOrEof_parse_reg w i) ?_
      rintro ⟨i1, reg⟩ -
      exact Or.inl ⟨_, rfl⟩
    · refine okOrEof_bind (okOrEof_parse_addr i) ?_
      rintro ⟨i1, addr⟩ -
      refine okOrEof_bind (okOrEof_parse_eaddr i1 mode addr) ?_
      rintro ⟨i2, eaddr⟩ -
      exact Or.inl ⟨_, rfl⟩

theorem notAssert_of_okOrEof {α : Type} {r : Except PErr α}
    (h : okOrEof r) : notAssert r := by
  rcases h with ⟨a, ha⟩ | ha <;> rw [ha] <;> simp [notAssert]

theorem notAssert_bind {α β : Type} {x : Except PErr α} {f : α → Except PErr β}
    (hx : notAssert x) (hf : ∀ a, x = Except.ok a → notAssert (f a)) :
    notAssert (x >>= f) := by
  cases x with
  | error e =>
      rw [pe_bind_err]
      simp only [notAssert, ne_eq, Except.error.injEq] at hx ⊢
      exact hx
  | ok a => rw [pe_bind_ok]; exact hf a rfl

theorem take2_ok_le {i : BitInput} {a : BitInput × Nat}
    (h : take_2bits i = Except.ok a) : a.2 ≤ 3 := by
  obtain ⟨i1, v⟩ := a
  unfold take_2bits at h
  have h4 : v < 4 := by simpa using take_ok_lt h
  exact Nat.lt_succ_iff.mp h4

theorem okOrEof_take2 (i : BitInput) : okOrEof (take_2bits i) := by
  unfold take_2bits; exact okOrEof_take 2 i

theorem notAssert_parse_opcode (i : BitInput) : notAssert (parse_opcode i) := by
  unfold parse_opcode take_nibble
  cases h4 : take 4 i with
  | error e =>
      rw [pe_bind_err, take_err h4]
      simp [notAssert]
  | ok a =>
      obtain ⟨i1, v⟩ := a
      rw [pe_bind_ok]
      have hv : v < 16 := by simpa using take_ok_lt h4
      interval_cases v <;> dsimp only
      all_goals first
        | exact notAssert_of_okOrEof (okOrEof_pure _)
        | exact notAssert_bind (notAssert_of_okOrEof (okOrEof_take2 i1))
            (fun a _ => notAssert_of_okOrEof (Or.inl ⟨_, rfl⟩))
        | (simp only [notAssert, ne_eq, Except.error.injEq, PErr.panicked.injEq]
           decide)

theorem notAssert_parse_instruction (i : BitInput) :
    notAssert (parse_instruction i) := by
  unfold parse_instruction
  refine notAssert_bind (notAssert_parse_opcode i) ?_
  rintro ⟨i1, op⟩ -
  dsimp only
  cases op with
  | MovRegRM =>
      refine notAssert_bind (notAssert_of_okOrEof (okOrEof_bool i1)) ?_
      rintro a -
      refine notAssert_bind (notAssert_of_okOrEof (okOrEof_bool a.1)) ?_
      rintro b -
      refine notAssert_bind (notAssert_of_okOrEof (okOrEof_take2 b.1)) ?_
      rintro c hc
      refine notAssert_bind (notAssert_of_okOrEof (okOrEof_parse_reg b.2 c.1)) ?_
      rintro d -
      refine notAssert_bind
        (notAssert_of_okOrEof (okOrEof_parse_rm c.2 b.2 d.1 (take2_ok_le hc))) ?_
      rintro e -
      split <;>
        exact notAssert_bind (notAssert_of_okOrEof (okOrEof_pure _))
          (fun y _ => notAssert_of_okOrEof (okOrEof_pure _))
  | MovImmediateReg =>
      refine notAssert_bind (notAssert_of_okOrEof (okOrEof_bool i1)) ?_
      rintro a -
      refine notAssert_bind (notAssert_of_okOrEof (okOrEof_parse_reg a.2 a.1)) ?_
      rintro b -
      refine notAssert_bind
        (notAssert_of_okOrEof (okOrEof_parse_immediate b.1 a.2)) ?_
      rintro c -
      exact notAssert_bind (notAssert_of_okOrEof (okOrEof_pure _))
        (fun y _ => notAssert_of_okOrEof (okOrEof_pure _))
  | MovImmediateRM =>
      rw [pe_bind_err]
      simp [notAssert]
  | Unimplemented =>
      rw [pe_bind_err]
      simp [notAssert]

/-- When the leading nibble is one of the two implemented families, a
successful `parse_opcode` classifies it as `MovRegRM` (nibble `0b1000`)
or `MovImmediateReg` (nibble `0b1011`). -/
theorem parse_opcode_ok_mov {i i1 : BitInput} {op : Op}
    (h : match take 4 i with
         | Except.ok (_, v) => v = 8 ∨ v = 11
         | Except.error _ => True)
    (hop : parse_opcode i = Except.ok (i1, op)) :
    op = Op.MovRegRM ∨ op = Op.MovImmediateReg := by
  unfold parse_opcode take_nibble at hop
  cases h4 : take 4 i with
  | error e => rw [h4, pe_bind_err] at hop; exact absurd hop (by simp)
  | ok a =>
      obtain ⟨i2, v⟩ := a
      rw [h4] at h hop
      rw [pe_bind_ok] at hop
      dsimp only at h hop
      rcases h with h | h <;> subst h <;> dsimp only at hop
      · obtain ⟨b, -, hb⟩ := pe_bind_eq_ok hop
        obtain ⟨i3, u⟩ := b
        simp only [pe_pure, Except.ok.injEq, Prod.mk.injEq] at hb
        exact Or.inl hb.2.symm
      · simp only [pe_pure, Except.ok.injEq, Prod.mk.injEq] at hop
        exact Or.inr hop.2.symm

/-! Byte-level computation lemmas: a field read that stays inside the
first byte of the buffer depends only on that byte. -/

theorem bitOf_cons_low (b : Nat) (rest : List Nat) (k : Nat) (h : k < 8) :
    bitOf (b :: rest) k = bitOf [b] k := by
  unfold bitOf
  rw [Nat.div_eq_of_lt h]
  rfl

theorem bitsVal_cons_low (b : Nat) (rest : List Nat) (off : Nat) :
    ∀ n, off + n ≤ 8 → bitsVal (b :: rest) off n = bitsVal [b] off n := by
  intro n
  induction n with
  | zero => intro _; rfl
  | succ m ih =>
      intro h
      unfold bitsVal
      rw [ih (by omega), bitOf_cons_low b rest (off + m) (by omega)]

theorem bitsVal_one (bs : List Nat) (off : Nat) : bitsVal bs off 1 = bitOf bs off := by
  simp [bitsVal]

theorem take_cons_lt (n b : Nat) (rest : List Nat) (off : Nat) (h : off + n < 8) :
    take n (b :: rest, off)
      = Except.ok ((b :: rest, off + n), bitsVal [b] off n) := by
  unfold take
  dsimp only
  rw [if_neg (show ¬ ((b :: rest).length * 8 < off + n) by
        simp only [List.length_cons]; omega)]
  rw [Nat.div_eq_of_lt h, Nat.mod_eq_of_lt h,
    bitsVal_cons_low b rest off n (by omega)]
  rfl

theorem take_cons_eq8 (n b : Nat) (rest : List Nat) (off : Nat) (h : off + n = 8) :
    take n (b :: rest, off) = Except.ok ((rest, 0), bitsVal [b] off n) := by
  unfold take
  dsimp only
  rw [if_neg (show ¬ ((b :: rest).length * 8 < off + n) by
        simp only [List.length_cons]; omega)]
  rw [h, bitsVal_cons_low b rest off n (le_of_eq h)]
  rfl

theorem bool_cons_lt (b : Nat) (rest : List Nat) (off : Nat) (h : off + 1 < 8) :
    bool (b :: rest, off)
      = Except.ok ((b :: rest, off + 1), bitsVal [b] off 1 == 1) := by
  unfold bool
  rw [take_cons_lt 1 b rest off h, pe_map_ok]

theorem bool_cons_eq8 (b : Nat) (rest : List Nat) :
    bool (b :: rest, 7) = Except.ok ((rest, 0), bitsVal [b] 7 1 == 1) := by
  unfold bool
  rw [take_cons_eq8 1 b rest 7 rfl, pe_map_ok]

/-- On a buffer whose first byte has leading nibble `0b1000`, the opcode
classifier consumes 6 bits (the nibble and the two discarded bits) and
classifies the family as `MovRegRM`. -/
theorem parse_opcode_cons_mov (b : Nat) (rest : List Nat)
    (h : bitsVal [b] 0 4 = 8) :
    parse_opcode (b :: rest, 0) = Except.ok ((b :: rest, 6), Op.MovRegRM) := by
  unfold parse_opcode take_nibble
  rw [take_cons_lt 4 b rest 0 (by omega), pe_bind_ok]
  dsimp only
  rw [show (0 : Nat) + 4 = 4 from rfl, h]
  dsimp only
  unfold take_2bits
  rw [take_cons_lt 2 b rest 4 (by omega), pe_bind_ok]
  rfl

/-- On a buffer whose first byte has leading nibble `0b1000`,
`parse_instruction` is the `MovRegRM` continuation `movTail` applied to
the `d` bit (bit 6) and `w` bit (bit 7) of the first byte and the
remaining bytes. -/
theorem parse_instruction_cons_mov (b : Nat) (rest : List Nat)
    (h : bitsVal [b] 0 4 = 8) :
    parse_instruction (b :: rest, 0)
      = movTail (bitsVal [b] 6 1 == 1) (bitsVal [b] 7 1 == 1) rest := by
  unfold parse_instruction
  rw [parse_opcode_cons_mov b rest h, pe_bind_ok]
  dsimp only
  rw [bool_cons_lt b rest 6 (by omega), pe_bind_ok]
  dsimp only
  rw [show (6 : Nat) + 1 = 7 from rfl, bool_cons_eq8 b rest, pe_bind_ok]
  dsimp only
  unfold movTail
  rfl

/-- Core of the direction-bit symmetry: the `MovRegRM` continuation with
`d = 1` equals the `d = 0` continuation with destination and source
exchanged, on every remaining byte stream. -/
theorem movTail_swap (w : Bool) (rest : List Nat) :
    movTail true w rest
      = Except.map (fun p => (p.1, swapRoles p.2)) (movTail false w rest) := by
  unfold movTail
  cases hm : take_2bits (rest, 0) with
  | error e => rw [pe_bind_err, pe_bind_err, pe_map_err]
  | ok a =>
      rw [pe_bind_ok, pe_bind_ok]
      dsimp only
      cases hr : parse_reg w a.1 with
      | error e => rw [pe_bind_err, pe_bind_err, pe_map_err]
      | ok b =>
          rw [pe_bind_ok, pe_bind_ok]
          cases hrm : parse_rm a.2 w b.1 with
          | error e => rw [pe_bind_err, pe_bind_err, pe_map_err]
          | ok c =>
              rw [pe_bind_ok, pe_bind_ok]
              rfl

/-- C1: the claim says inputs with leading nibble `1100` or `1010` must
surface as a typed `Unimplemented` outcome and never abort; in the code
`parse_opcode`'s arms for these nibbles are `todo` macros, which panic
(abort the process) instead of returning a typed error. -/
theorem C1_reserved_nibbles_abort :
    parse_instruction ([0xC0], 0)
        = Except.error (PErr.panicked "not yet implemented: Immediate to register/memory") ∧
      parse_instruction ([0xA0], 0)
        = Except.error (PErr.panicked "not yet implemented: Memory to/from accumulator") :=
  ⟨rfl, rfl⟩

/-- C2: the claim says an unrecognized leading nibble yields a structured
`UnsupportedOpcode` result carrying the raw bits and remaining buffer and
never terminates the process; in the code `parse_opcode` returns the
payload-less `Op::Unimplemented` (printing the diagnostics to stdout
instead of carrying them), and `parse_instruction` then hits a `todo`
panic on that variant, aborting the process. -/
theorem C2_unrecognized_aborts :
    parse_opcode ([0x00], 0) = Except.ok ((([0x00], 4) : BitInput), Op.Unimplemented) ∧
      parse_instruction ([0x00], 0) = Except.error (PErr.panicked "not yet implemented") :=
  ⟨rfl, rfl⟩

/-- C3 (counterexample): the claim's concrete scenario says the one-byte
buffer `[0xFF]` decodes to `InsufficientInput`; its leading nibble `1111`
is in fact unrecognized, so the code reaches the `todo` panic on
`Op::Unimplemented` and does not return `InsufficientInput`. -/
theorem C3_counterexample_ff_panics :
    parse_instruction ([0xFF], 0) = Except.error (PErr.panicked "not yet implemented") ∧
      parse_instruction ([0xFF], 0) ≠ Except.error PErr.insufficientInput := by
  have h1 : parse_instruction ([0xFF], 0)
      = Except.error (PErr.panicked "not yet implemented") := rfl
  refine ⟨h1, ?_⟩
  rw [h1]
  simp

/-- C3 (amended): whenever the leading nibble cannot be read (buffer
shorter than 4 bits) or reads as one of the implemented families `1000`
or `1011`, `parse_instruction` either succeeds or returns the
`InsufficientInput` error — it never panics, and every out-of-range read
is caught by the bounds check in `take`; in particular the one-byte
buffer `[0x89]` (nibble `1000`, truncated before the mod/reg/rm byte)
returns exactly `InsufficientInput`. -/
theorem C3_amended_implemented_paths_eof :
    (∀ (bs : List Nat) (off : Nat),
      (match take 4 (bs, off) with
       | Except.ok (_, v) => v = 8 ∨ v = 11
       | Except.error _ => True) →
      (∃ r, parse_instruction (bs, off) = Except.ok r) ∨
        parse_instruction (bs, off) = Except.error PErr.insufficientInput) ∧
    parse_instruction ([0x89], 0) = Except.error PErr.insufficientInput := by
  refine ⟨?_, rfl⟩
  intro bs off h
  have hmain : okOrEof (parse_instruction (bs, off)) := by
    unfold parse_instruction
    refine okOrEof_bind ?_ ?_
    · unfold parse_opcode take_nibble
      refine okOrEof_bind (okOrEof_take 4 (bs, off)) ?_
      rintro ⟨i1, v⟩ h4
      rw [h4] at h
      dsimp only at h ⊢
      rcases h with h | h <;> subst h
      · exact okOrEof_bind (okOrEof_take2 i1) (fun a _ => Or.inl ⟨_, rfl⟩)
      · exact Or.inl ⟨_, rfl⟩
    · rintro ⟨i1, op⟩ hop
      rcases parse_opcode_ok_mov h hop with h' | h' <;> subst h' <;> dsimp only
      · refine okOrEof_bind (okOrEof_bool i1) ?_
        rintro a -
        refine okOrEof_bind (okOrEof_bool a.1) ?_
        rintro b -
        refine okOrEof_bind (okOrEof_take2 b.1) ?_
        rintro c hc
        refine okOrEof_bind (okOrEof_parse_reg b.2 c.1) ?_
        rintro d -
        refine okOrEof_bind (okOrEof_parse_rm c.2 b.2 d.1 (take2_ok_le hc)) ?_
        rintro e -
        split <;> exact okOrEof_bind (okOrEof_pure _) (fun y _ => Or.inl ⟨_, rfl⟩)
      · refine okOrEof_bind (okOrEof_bool i1) ?_
        rintro a -
        refine okOrEof_bind (okOrEof_parse_reg a.2 a.1) ?_
        rintro b -
        refine okOrEof_bind (okOrEof_parse_immediate b.1 a.2) ?_
        rintro c -
        exact okOrEof_bind (okOrEof_pure _) (fun y _ => Or.inl ⟨_, rfl⟩)
  exact hmain

/-- C3 (witness): the implemented-family one-byte buffer `[0x89]`
(nibble `1000`, truncated before the mod/reg/rm byte) does not panic,
and its outcome is exactly the `InsufficientInput` error. -/
theorem C3_amended_witness :
    ((∃ r, parse_instruction ([0x89], 0) = Except.ok r) ∨
      parse_instruction ([0x89], 0) = Except.error PErr.insufficientInput) ∧
    parse_instruction ([0x89], 0) = Except.error PErr.insufficientInput :=
  ⟨C3_amended_implemented_paths_eof.1 [0x89] 0 (Or.inl rfl),
   C3_amended_implemented_paths_eof.2⟩

theorem parse_reg_ok_isWord {w : Bool} {i i1 : BitInput} {r : Register}
    (h : parse_reg w i = Except.ok (i1, r)) : r.isWord = w := by
  unfold parse_reg at h
  cases h3 : take 3 i with
  | error e => rw [h3, pe_map_err] at h; exact absurd h (by simp)
  | ok a =>
      rw [h3, pe_map_ok] at h
      simp only [Except.ok.injEq, Prod.mk.injEq] at h
      cases w <;> rw [← h.2] <;> rfl

/-- C4: mode dispatch of the register/memory operand decoder.  With mode
`0b11` the operand is a register of the width selected by the `w` flag
and nothing beyond the 3-bit field is consumed; with mode `0b00` the
result is a bare effective address with no displacement consumed; with
mode `0b01` exactly one further 8-bit byte is consumed as a byte
displacement; with mode `0b10` two further bytes are consumed as a word
displacement. -/
theorem C4_mode_dispatch (w : Bool) (i : BitInput) :
    (∀ i1 r, parse_reg w i = Except.ok (i1, r) →
        parse_rm 3 w i = Except.ok (i1, Location.Reg r) ∧ r.isWord = w) ∧
    (∀ i1 a, parse_addr i = Except.ok (i1, a) →
        parse_rm 0 w i = Except.ok (i1, Location.Addr (EAddress.Bare a))) ∧
    (∀ i1 a i2 v, parse_addr i = Except.ok (i1, a) → take 8 i1 = Except.ok (i2, v) →
        parse_rm 1 w i
          = Except.ok (i2, Location.Addr (EAddress.WithOffset a (Immediate.Byte v)))) ∧
    (∀ i1 a i2 lo i3 hi, parse_addr i = Except.ok (i1, a) →
        take 8 i1 = Except.ok (i2, lo) → take 8 i2 = Except.ok (i3, hi) →
        parse_rm 2 w i
          = Except.ok (i3, Location.Addr (EAddress.WithOffset a
              (Immediate.Word (hi <<< 8 + lo))))) := by
  refine ⟨?_, ?_, ?_, ?_⟩
  · intro i1 r h
    refine ⟨?_, parse_reg_ok_isWord h⟩
    unfold parse_rm
    rw [h]
    rfl
  · intro i1 a h
    unfold parse_rm parse_eaddr
    rw [h]
    rfl
  · intro i1 a i2 v ha h8
    unfold parse_rm parse_eaddr parse_immediate
    simp only [ha, h8, pe_bind_ok]
    rfl
  · intro i1 a i2 lo i3 hi ha h8a h8b
    unfold parse_rm parse_eaddr parse_immediate
    simp only [ha, h8a, h8b, pe_bind_ok]
    rfl

/-- C4 (witness): the four mode cases evaluated on the concrete buffer
`[0x05, 0x07, 0x09]` at bit offset 0 with the word flag set. -/
theorem C4_witness :
    (parse_rm 3 true ([0x05, 0x07, 0x09], 0)
        = Except.ok ((([0x05, 0x07, 0x09], 3) : BitInput),
            Location.Reg (Register.word 0))
      ∧ (Register.word 0).isWord = true) ∧
    parse_rm 0 true ([0x05, 0x07, 0x09], 0)
        = Except.ok ((([0x05, 0x07, 0x09], 3) : BitInput),
            Location.Addr (EAddress.Bare Address.BxSi)) ∧
    parse_rm 1 true ([0x05, 0x07, 0x09], 0)
        = Except.ok ((([0x07, 0x09], 3) : BitInput),
            Location.Addr (EAddress.WithOffset Address.BxSi (Immediate.Byte 40))) ∧
    parse_rm 2 true ([0x05, 0x07, 0x09], 0)
        = Except.ok ((([0x09], 3) : BitInput),
            Location.Addr (EAddress.WithOffset Address.BxSi
              (Immediate.Word (56 <<< 8 + 40)))) :=
  ⟨(C4_mode_dispatch true ([0x05, 0x07, 0x09], 0)).1 ([0x05, 0x07, 0x09], 3)
      (Register.word 0) rfl,
   (C4_mode_dispatch true ([0x05, 0x07, 0x09], 0)).2.1 ([0x05, 0x07, 0x09], 3)
      Address.BxSi rfl,
   (C4_mode_dispatch true ([0x05, 0x07, 0x09], 0)).2.2.1 ([0x05, 0x07, 0x09], 3)
      Address.BxSi ([0x07, 0x09], 3) 40 rfl rfl,
   (C4_mode_dispatch true ([0x05, 0x07, 0x09], 0)).2.2.2 ([0x05, 0x07, 0x09], 3)
      Address.BxSi ([0x07, 0x09], 3) 40 ([0x09], 3) 56 rfl rfl rfl⟩

/-- C5: the 3-bit register/memory field selects the eight base-register
combinations BX+SI, BX+DI, BP+SI, BP+DI, SI, DI, BP, BX in exactly
field-value order 0–7 (shown as positional lookup in that list). -/
theorem C5_addr_table (i i1 : BitInput) (v : Nat)
    (h : take_3bits i = Except.ok (i1, v)) :
    parse_addr i = Except.ok (i1,
      [Address.BxSi, Address.BxDi, Address.BpSi, Address.BpDi,
       Address.Si, Address.Di, Address.Bp, Address.Bx].getD v Address.Bx) := by
  unfold parse_addr
  rw [h, pe_bind_ok]
  rcases v with _|_|_|_|_|_|_|_|v <;> rfl

/-- C5 (witness): field value 6 (buffer `[0xC0]`, bits `110`) selects the
BP base combination. -/
theorem C5_witness :
    parse_addr ([0xC0], 0) = Except.ok ((([0xC0], 3) : BitInput), Address.Bp) :=
  C5_addr_table ([0xC0], 0) ([0xC0], 3) 6 rfl

/-- C6: the direction-bit convention and its symmetry.  For any two first
bytes of the register/memory-to-register-or-memory family (leading nibble
`1000`) that agree on the `w` bit (bit 7) and differ in the `d` bit
(bit 6), and any identical remaining bytes (the same mod/reg/rm byte pair
and displacements): with `d = 1` the destination is the register operand
of the reg field and the source is the decoded rm location, with `d = 0`
the roles are exactly swapped, and hence the `d = 1` decode is the
`d = 0` decode with destination and source exchanged — same cursor, same
operand identities, swapped roles. -/
theorem C6_direction_symmetry (b1 b0 : Nat) (rest : List Nat)
    (h1 : bitsVal [b1] 0 4 = 8) (h0 : bitsVal [b0] 0 4 = 8)
    (hd1 : bitOf [b1] 6 = 1) (hd0 : bitOf [b0] 6 = 0)
    (hw : bitOf [b1] 7 = bitOf [b0] 7) :
    (∀ i2 i3 i4 mode reg rm,
      take_2bits (rest, 0) = Except.ok (i2, mode) →
      parse_reg (bitOf [b0] 7 == 1) i2 = Except.ok (i3, reg) →
      parse_rm mode (bitOf [b0] 7 == 1) i3 = Except.ok (i4, rm) →
      parse_instruction (b1 :: rest, 0)
          = Except.ok (i4,
              { _address := 0, _size := 0, operation := Op.MovRegRM,
                destination := Location.Reg reg, source := Source.Loc rm }) ∧
        parse_instruction (b0 :: rest, 0)
          = Except.ok (i4,
              { _address := 0, _size := 0, operation := Op.MovRegRM,
                destination := rm, source := Source.Loc (Location.Reg reg) })) ∧
    parse_instruction (b1 :: rest, 0)
      = Except.map (fun p => (p.1, swapRoles p.2))
          (parse_instruction (b0 :: rest, 0)) := by
  constructor
  · intro i2 i3 i4 mode reg rm hm hr hrm
    constructor
    · rw [parse_instruction_cons_mov b1 rest h1]
      simp only [bitsVal_one]
      rw [hd1, hw]
      unfold movTail
      simp only [hm, hr, hrm, pe_bind_ok]
      rfl
    · rw [parse_instruction_cons_mov b0 rest h0]
      simp only [bitsVal_one]
      rw [hd0]
      unfold movTail
      simp only [hm, hr, hrm, pe_bind_ok]
      rfl
  · rw [parse_instruction_cons_mov b1 rest h1, parse_instruction_cons_mov b0 rest h0]
    simp only [bitsVal_one]
    rw [hd1, hd0, hw]
    exact movTail_swap (bitOf [b0] 7 == 1) rest

/-- C6 (witness): `[0x8A, 0xD8]` (d=1) puts the reg-field register
(byte register 3) in the destination and the rm location (byte register
0) in the source; `[0x88, 0xD8]` (d=0) decodes the same operands with
the roles swapped; and the d=1 decode is the swap of the d=0 decode. -/
theorem C6_witness :
    (parse_instruction ([0x8A, 0xD8], 0)
        = Except.ok ((([], 0) : BitInput),
            { _address := 0, _size := 0, operation := Op.MovRegRM,
              destination := Location.Reg (Register.byte 3),
              source := Source.Loc (Location.Reg (Register.byte 0)) }) ∧
      parse_instruction ([0x88, 0xD8], 0)
        = Except.ok ((([], 0) : BitInput),
            { _address := 0, _size := 0, operation := Op.MovRegRM,
              destination := Location.Reg (Register.byte 0),
              source := Source.Loc (Location.Reg (Register.byte 3)) })) ∧
    parse_instruction ([0x8A, 0xD8], 0)
      = Except.map (fun p => (p.1, swapRoles p.2))
          (parse_instruction ([0x88, 0xD8], 0)) :=
  ⟨(C6_direction_symmetry 0x8A 0x88 [0xD8] rfl rfl rfl rfl rfl).1
      ([0xD8], 2) ([0xD8], 5) ([], 0) 3 (Register.byte 3)
      (Location.Reg (Register.byte 0)) rfl rfl rfl,
   (C6_direction_symmetry 0x8A 0x88 [0xD8] rfl rfl rfl rfl rfl).2⟩

/-- C7: the immediate/displacement reader.  With the width flag clear it
consumes exactly the 8 bits of one `take 8` and returns them as a byte
immediate; with the flag set it consumes 16 bits as two 8-bit reads, the
first being the low-order byte, and returns the little-endian word
`low + high * 2^8`.  The bounds show the values fit 8 bits each. -/
theorem C7_immediate_little_endian (i : BitInput) :
    (∀ i1 v, take 8 i = Except.ok (i1, v) →
        parse_immediate i false = Except.ok (i1, Immediate.Byte v) ∧ v < 2 ^ 8) ∧
    (∀ i1 lo i2 hi, take 8 i = Except.ok (i1, lo) → take 8 i1 = Except.ok (i2, hi) →
        parse_immediate i true = Except.ok (i2, Immediate.Word (lo + hi * 2 ^ 8)) ∧
          lo < 2 ^ 8 ∧ hi < 2 ^ 8) := by
  constructor
  · intro i1 v h
    refine ⟨?_, take_ok_lt h⟩
    unfold parse_immediate
    rw [h, pe_bind_ok]
    rfl
  · intro i1 lo i2 hi hlo hhi
    refine ⟨?_, take_ok_lt hlo, take_ok_lt hhi⟩
    unfold parse_immediate
    simp only [hlo, hhi, pe_bind_ok]
    have hv : hi <<< 8 + lo = lo + hi * 2 ^ 8 := by
      rw [Nat.shiftLeft_eq]; ring
    rw [← hv]
    rfl

/-- C7 (witness): `[0x05, 0x00]` read as a byte gives 5 after one byte;
read as a word it gives the little-endian word 5 after two bytes. -/
theorem C7_witness :
    parse_immediate ([0x05, 0x00], 0) false
        = Except.ok ((([0x00], 0) : BitInput), Immediate.Byte 5) ∧
      parse_immediate ([0x05, 0x00], 0) true
        = Except.ok ((([], 0) : BitInput), Immediate.Word (5 + 0 * 2 ^ 8)) :=
  ⟨((C7_immediate_little_endian ([0x05, 0x00], 0)).1 ([0x00], 0) 5 rfl).1,
   ((C7_immediate_little_endian ([0x05, 0x00], 0)).2 ([0x00], 0) 5 ([], 0) 0
      rfl rfl).1⟩

/-- C8 (counterexample): the claim says every decoded instruction carries
its byte address and total byte length (2 for `[0x89, 0xD8]`); the code
builds the record with `_address: 0, _size: 0`, so the two bytes the
decode consumed (the returned cursor is the empty buffer) are not
recorded in the `_size` field. -/
theorem C8_counterexample_size_zero :
    parse_instruction ([0x89, 0xD8], 0)
        = Except.ok ((([], 0) : BitInput),
            { _address := 0, _size := 0, operation := Op.MovRegRM,
              destination := Location.Reg (Register.word 0),
              source := Source.Loc (Location.Reg (Register.word 3)) }) ∧
      parse_instruction ([0x89, 0xD8], 0)
        ≠ Except.ok ((([], 0) : BitInput),
            { _address := 0, _size := 2, operation := Op.MovRegRM,
              destination := Location.Reg (Register.word 0),
              source := Source.Loc (Location.Reg (Register.word 3)) }) := by
  have hres : parse_instruction ([0x89, 0xD8], 0)
      = Except.ok ((([], 0) : BitInput),
          { _address := 0, _size := 0, operation := Op.MovRegRM,
            destination := Location.Reg (Register.word 0),
            source := Source.Loc (Location.Reg (Register.word 3)) }) := rfl
  refine ⟨hres, ?_⟩
  rw [hres]
  simp

/-- C8 (amended): every successfully decoded instruction record carries
placeholder `_address` and `_size` fields that are always 0; the bytes
actually consumed are conveyed only by the returned cursor, not by the
record. -/
theorem C8_amended_placeholder_fields (i : BitInput) (r : BitInput × Instruction)
    (h : parse_instruction i = Except.ok r) :
    r.2._address = 0 ∧ r.2._size = 0 := by
  unfold parse_instruction at h
  obtain ⟨a, -, h2⟩ := pe_bind_eq_ok h
  obtain ⟨i1, op⟩ := a
  dsimp only at h2
  cases op with
  | MovRegRM =>
      obtain ⟨a, -, h2⟩ := pe_bind_eq_ok h2
      obtain ⟨b, -, h2⟩ := pe_bind_eq_ok h2
      obtain ⟨c, -, h2⟩ := pe_bind_eq_ok h2
      obtain ⟨d, -, h2⟩ := pe_bind_eq_ok h2
      obtain ⟨e, -, h2⟩ := pe_bind_eq_ok h2
      split at h2 <;>
      · obtain ⟨y, -, h2⟩ := pe_bind_eq_ok h2
        simp only [pe_pure, Except.ok.injEq] at h2
        rw [← h2]
        exact ⟨rfl, rfl⟩
  | MovImmediateReg =>
      obtain ⟨a, -, h2⟩ := pe_bind_eq_ok h2
      obtain ⟨b, -, h2⟩ := pe_bind_eq_ok h2
      obtain ⟨c, -, h2⟩ := pe_bind_eq_ok h2
      obtain ⟨y, -, h2⟩ := pe_bind_eq_ok h2
      simp only [pe_pure, Except.ok.injEq] at h2
      rw [← h2]
      exact ⟨rfl, rfl⟩
  | MovImmediateRM =>
      rw [pe_bind_err] at h2
      exact absurd h2 (by simp)
  | Unimplemented =>
      rw [pe_bind_err] at h2
      exact absurd h2 (by simp)

/-- C8 (witness): the placeholder fields of the instruction decoded from
`[0x89, 0xD8]` are both 0. -/
theorem C8_amended_witness :
    (((([], 0) : BitInput),
        ({ _address := 0, _size := 0, operation := Op.MovRegRM,
           destination := Location.Reg (Register.word 0),
           source := Source.Loc (Location.Reg (Register.word 3)) } :
          Instruction)) : BitInput × Instruction).2._address = 0 ∧
      (((([], 0) : BitInput),
        ({ _address := 0, _size := 0, operation := Op.MovRegRM,
           destination := Location.Reg (Register.word 0),
           source := Source.Loc (Location.Reg (Register.word 3)) } :
          Instruction)) : BitInput × Instruction).2._size = 0 :=
  C8_amended_placeholder_fields ([0x89, 0xD8], 0) _ rfl

/-- C9: with mode `0b00` and register/memory field `0b110` the decoder
returns the bare BP base combination — `Location::Addr(Bare(Bp))` with no
displacement — and does not special-case this encoding as a direct 16-bit
address (no such variant even exists in the decoded type). -/
theorem C9_mode0_rm110_bare_bp (w : Bool) (i i1 : BitInput)
    (h : take_3bits i = Except.ok (i1, 6)) :
    parse_rm 0 w i = Except.ok (i1, Location.Addr (EAddress.Bare Address.Bp)) := by
  unfold parse_rm parse_eaddr parse_addr
  simp only [h, pe_bind_ok]
  rfl

/-- C9 (witness): buffer `[0xC0]` (bits `110…`) under mode `0b00`. -/
theorem C9_witness :
    parse_rm 0 true ([0xC0], 0)
      = Except.ok ((([0xC0], 3) : BitInput),
          Location.Addr (EAddress.Bare Address.Bp)) :=
  C9_mode0_rm110_bare_bp true ([0xC0], 0) ([0xC0], 3) rfl

/-- C10: the `assert(mode <= 3)` in `parse_rm` can never fire on a call
reachable from `parse_instruction`: every 2-bit field extraction yields a
value at most 3, and `parse_instruction` never returns the assertion's
panic outcome on any input. -/
theorem C10_mode_assert_unreachable :
    (∀ i a, take_2bits i = Except.ok a → a.2 ≤ 3) ∧
      ∀ i, parse_instruction i
          ≠ Except.error (PErr.panicked "assertion failed: mode <= 3") :=
  ⟨fun _ _ h => take2_ok_le h, fun i => notAssert_parse_instruction i⟩

/-- C10 (witness): the 2-bit field of `[0xD8]` is 3 ≤ 3, and the decode
of `[0x89, 0xD8]` is not the assertion panic. -/
theorem C10_witness :
    (((([0xD8], 2) : BitInput), 3) : BitInput × Nat).2 ≤ 3 ∧
      parse_instruction ([0x89, 0xD8], 0)
        ≠ Except.error (PErr.panicked "assertion failed: mode <= 3") :=
  ⟨C10_mode_assert_unreachable.1 ([0xD8], 0) ((([0xD8], 2) : BitInput), 3) rfl,
   C10_mode_assert_unreachable.2 ([0x89, 0xD8], 0)⟩

end Decode8086
